import Mathlib

/-!
Verification of the CSS-like selector engine `qualifier.py`: a shallow
embedding of its parser (`parse_selector`, `parse_selector_chain`,
`parse_pseudo_class`, `parse_selector_token`, `normalize_selector_chain`)
and matcher (`match_selector`, `match_pseudo_class_selector`,
`match_parent_selector`, `match_selector_chain`, `query_selector_all`)
into Lean, followed by theorems settling the frozen claims about it.

Python strings are modelled as `List Char` internally (with `String` at the
API edges), Python `dict` as association lists with unique keys, Python
exceptions as an error monad `Except PyErr`, and Python object identity
(`id()`) as an explicit `nid` field on nodes that structural equality
(`==` on the dataclass) ignores.  Recursion that Python bounds only by its
call stack is modelled with a fuel argument generous enough that no input
reachable from the parser exhausts it; exhaustion surfaces as
`PyErr.recursionError`, mirroring Python's `RecursionError`.
-/

/-- Python regex `\s` over the ASCII range: the whitespace characters that
`str.split()`, `\s+` and `\s*` treat as spaces. -/
def isPySpace (c : Char) : Bool :=
  c = ' ' || c = '\t' || c = '\n' || c = '\r' || c = '\x0b' || c = '\x0c'

/-- ASCII letter, the character class `[a-zA-Z]`. -/
def isAsciiLetter (c : Char) : Bool :=
  ('a' ≤ c && c ≤ 'z') || ('A' ≤ c && c ≤ 'Z')

/-- ASCII digit `[0-9]`. -/
def isAsciiDigit (c : Char) : Bool :=
  '0' ≤ c && c ≤ '9'

/-- Python regex `\w` over the ASCII range: `[a-zA-Z0-9_]`. -/
def isWordChar (c : Char) : Bool :=
  isAsciiLetter c || isAsciiDigit c || c = '_'

/-- The character class `[-\w]` used by the class and id token patterns. -/
def isClsChar (c : Char) : Bool :=
  c = '-' || isWordChar c

/-- The character class `[a-zA-Z\-]` of pseudo-class names. -/
def isPseudoNameChar (c : Char) : Bool :=
  c = '-' || isAsciiLetter c

/-- Lookup in a Python dict modelled as an association list with unique
keys: `d[k]` when present. -/
def dictLookup (d : List (String × String)) (k : String) : Option String :=
  match d with
  | [] => none
  | (k', v) :: rest => if k' = k then some v else dictLookup rest k

mutual

/-- Embeds `re.sub(r"\s+", " ", s)` (`_SPACE_PATTERN`): each maximal run of
whitespace becomes a single space.  `subSpaceSkip` is the state inside a
run. -/
def subSpace : List Char → List Char
  | [] => []
  | c :: rest => if isPySpace c then ' ' :: subSpaceSkip rest else c :: subSpace rest

/-- State of `subSpace` after the first character of a whitespace run has
been replaced: the rest of the run is dropped. -/
def subSpaceSkip : List Char → List Char
  | [] => []
  | c :: rest => if isPySpace c then subSpaceSkip rest else c :: subSpace rest

end

mutual

/-- State of `subChild` directly after an emitted `>`: the regex's trailing
`\s*` consumes the following whitespace run, and a further `>` starts a new
match. -/
def subChildAfterGt : List Char → List Char
  | [] => []
  | c :: rest =>
    if isPySpace c then subChildAfterGt rest
    else if c = '>' then ' ' :: '>' :: ' ' :: subChildAfterGt rest
    else c :: subChildGo rest []

/-- Embeds the scan of `re.sub(r"\s*>\s*", " > ", s)` (`_CHILD_PATTERN`).
`pend` buffers a whitespace run that is emitted verbatim unless a `>`
follows it, in which case the run belongs to the match's leading `\s*` and
is replaced by the padding. -/
def subChildGo : List Char → List Char → List Char
  | [], pend => pend.reverse
  | c :: rest, pend =>
    if c = '>' then ' ' :: '>' :: ' ' :: subChildAfterGt rest
    else if isPySpace c then subChildGo rest (c :: pend)
    else pend.reverse ++ c :: subChildGo rest []

end

/-- `re.sub(r"\s*>\s*", " > ", s)`. -/
def subChild (l : List Char) : List Char :=
  subChildGo l []

/-- Embeds `normalize_selector_chain` on character lists: collapse
whitespace runs, then pad every `>` occurrence with one space on each
side. -/
def normalizeChars (l : List Char) : List Char :=
  subChild (subSpace l)

/-- Embeds `normalize_selector_chain(selector)`. -/
def normalize_selector_chain (selector : String) : String :=
  String.mk (normalizeChars selector.data)

/-- Embeds Python `str.split()` with no separator: split on whitespace runs
and drop empty pieces.  `acc` holds the current word reversed. -/
def pySplitGo : List Char → List Char → List (List Char)
  | [], acc => if acc.isEmpty then [] else [acc.reverse]
  | c :: rest, acc =>
    if isPySpace c then
      if acc.isEmpty then pySplitGo rest [] else acc.reverse :: pySplitGo rest []
    else pySplitGo rest (c :: acc)

/-- Python `s.split()` on a character list. -/
def pySplitChars (l : List Char) : List (List Char) :=
  pySplitGo l []

mutual

/-- State of `splitComma` directly after a separator's comma: the trailing
`\s*` of `re.split(r"\s*,\s*", s)` consumes the whitespace run, and another
comma there starts a new (empty-piece) separator. -/
def splitCommaSkip : List Char → List (List Char)
  | [] => [[]]
  | c :: rest =>
    if isPySpace c then splitCommaSkip rest
    else if c = ',' then [] :: splitCommaSkip rest
    else splitCommaGo rest [] [c]

/-- Embeds the scan of `re.split(r"\s*,\s*", s)` (`_COMMA_PATTERN`).
`pend` buffers a whitespace run: it joins the current piece `seg` unless a
comma follows, in which case it belongs to the separator's leading `\s*`
and is dropped. -/
def splitCommaGo : List Char → List Char → List Char → List (List Char)
  | [], pend, seg => [seg ++ pend]
  | c :: rest, pend, seg =>
    if c = ',' then seg :: splitCommaSkip rest
    else if isPySpace c then splitCommaGo rest (pend ++ [c]) seg
    else splitCommaGo rest [] (seg ++ pend ++ [c])

end

/-- `re.split(r"\s*,\s*", s)` on a character list. -/
def splitComma (l : List Char) : List (List Char) :=
  splitCommaGo l [] []

/-- Leading and trailing Python whitespace removed, as `int()` does before
reading its digits. -/
def trimPyWs (l : List Char) : List Char :=
  (((l.dropWhile isPySpace).reverse).dropWhile isPySpace).reverse

/-- Digits of a base-10 numeral to its value; `none` when the list is empty
or holds a non-digit. -/
def digitsToNat : List Char → Option Nat
  | [] => none
  | ds => ds.foldl (fun acc c => match acc with
      | none => none
      | some n => if isAsciiDigit c then some (n * 10 + (c.toNat - '0'.toNat)) else none)
      (some 0)

/-- Embeds Python `int(s)` in base 10: surrounding whitespace stripped, an
optional sign, then digits; anything else raises `ValueError`, modelled as
`none`. -/
def pyInt (l : List Char) : Option Int :=
  match trimPyWs l with
  | [] => none
  | '+' :: ds => (digitsToNat ds).map (fun n => (n : Int))
  | '-' :: ds => (digitsToNat ds).map (fun n => -(n : Int))
  | ds => (digitsToNat ds).map (fun n => (n : Int))

/-- Modelled from the spec: `node.py` is not part of the repository's
files; the spec describes the node type as an external collaborator that
exposes `tag`, an attribute mapping, an ordered `children` sequence and a
stable object identity.  It is modelled as the Python dataclass record the
engine manifestly relies on: fields `tag`, `attributes`, `children`,
`text`, plus `nid`, the stable object identity `id()` returns.  Dataclass
equality `==` (`pyEqNode` below) compares the four record fields
structurally and ignores `nid`; `id()`-based deduplication reads `nid`
alone. -/
inductive Node : Type where
  | mk (nid : Nat) (tag : String) (attributes : List (String × String))
      (children : List Node) (text : String)

/-- Object identity of a node, Python `id(node)`. -/
def Node.nid : Node → Nat
  | .mk i _ _ _ _ => i

/-- Tag name of a node. -/
def Node.tag : Node → String
  | .mk _ t _ _ _ => t

/-- Attribute dict of a node. -/
def Node.attributes : Node → List (String × String)
  | .mk _ _ a _ _ => a

/-- Children list of a node. -/
def Node.children : Node → List Node
  | .mk _ _ _ c _ => c

/-- Text of a node. -/
def Node.text : Node → String
  | .mk _ _ _ _ x => x

mutual

/-- Modelled from the spec: dataclass `==` on nodes — structural equality
of `tag`, `attributes`, `children` and `text`, blind to object identity
`nid`.  Attribute dicts in this development keep unique keys in a fixed
order, so list equality coincides with dict equality on every value the
engine builds. -/
def pyEqNode : Node → Node → Bool
  | .mk _ t a c x, .mk _ t' a' c' x' =>
    t == t' && a == a' && pyEqNodes c c' && x == x'

/-- Dataclass `==` lifted elementwise to children lists. -/
def pyEqNodes : List Node → List Node → Bool
  | [], [] => true
  | a :: as, b :: bs => pyEqNode a b && pyEqNodes as bs
  | _, _ => false

end

mutual

/-- Embeds `deepcopy` on one node: a structurally identical tree of fresh
objects.  Fresh identities are modelled as `nid = 0`; the engine never
reads the identity of a copy, and the example trees below use only
positive `nid`s, so copies are distinct by identity from every original
node. -/
def deepcopyNode : Node → Node
  | .mk _ t a c x => .mk 0 t a (deepcopyNodes c) x

/-- `deepcopy` lifted to the children lists of a copied node. -/
def deepcopyNodes : List Node → List Node
  | [] => []
  | c :: cs => deepcopyNode c :: deepcopyNodes cs

end

/-- Embeds `deepcopy(context)` on an ancestor-context list. -/
def deepcopyCtx (ctx : List Node) : List Node :=
  ctx.map deepcopyNode

mutual

/-- Every node of the tree rooted at `node`, in depth-first pre-order: the
original objects themselves, used to state that query results are nodes of
the input tree. -/
def allNodes : Node → List Node
  | .mk i t a cs x => .mk i t a cs x :: allNodesList cs

/-- `allNodes` over a children list. -/
def allNodesList : List Node → List Node
  | [] => []
  | c :: cs => allNodes c ++ allNodesList cs

end

/-- Embeds the `PseudoClassType` enum: the pseudo-classes the engine
recognises. -/
inductive PseudoClassType : Type where
  | FIRST_CHILD
  | LAST_CHILD
  | NTH_CHILD
  | NOT
deriving DecidableEq

/-- Embeds the `Relation` enum between adjacent terms of a selector
chain. -/
inductive Relation : Type where
  | IMMEDIATE_CHILD
  | DESCENDANT
deriving DecidableEq

mutual

/-- Embeds the `SelectorChain` dataclass.  The Python `filter` dict holds
at most the keys `"class"` (a set of class names) and `"id"`; it is
modelled as the two optional fields `filterClass` and `filterId`. -/
inductive SelectorChain : Type where
  | mk (tag_name : String) (filterClass : Option (List String))
      (filterId : Option String) (next_selector : Option SelectorChain)
      (relation_to_previous : Relation) (pseudo_class : Option PseudoClass)

/-- Embeds the `PseudoClass` dataclass: a type and an argument. -/
inductive PseudoClass : Type where
  | mk (type : PseudoClassType) (argument : PseudoArg)

/-- The runtime type of `PseudoClass.argument`, which Python annotates as
`str | int | SelectorChain | None`; parsing a `:not` whose inner text has
no tokens leaves the Python value `None`, modelled as `.none`. -/
inductive PseudoArg : Type where
  | none
  | int (n : Int)
  | str (s : String)
  | chain (c : SelectorChain)

end

/-- Field `tag_name` of a selector term; `""` means wildcard. -/
def SelectorChain.tag_name : SelectorChain → String
  | .mk t _ _ _ _ _ => t

/-- The class set under the `"class"` key of the term's filter dict, when
present. -/
def SelectorChain.filterClass : SelectorChain → Option (List String)
  | .mk _ fc _ _ _ _ => fc

/-- The id under the `"id"` key of the term's filter dict, when present. -/
def SelectorChain.filterId : SelectorChain → Option String
  | .mk _ _ fi _ _ _ => fi

/-- Field `next_selector`: the term matching the nearer-the-root part of
the chain. -/
def SelectorChain.next_selector : SelectorChain → Option SelectorChain
  | .mk _ _ _ nx _ _ => nx

/-- Field `relation_to_previous`. -/
def SelectorChain.relation_to_previous : SelectorChain → Relation
  | .mk _ _ _ _ r _ => r

/-- Field `pseudo_class`. -/
def SelectorChain.pseudo_class : SelectorChain → Option PseudoClass
  | .mk _ _ _ _ _ pc => pc

/-- Functional update of `tag_name`. -/
def SelectorChain.setTag : SelectorChain → String → SelectorChain
  | .mk _ fc fi nx r pc, t => .mk t fc fi nx r pc

/-- Functional update of the filter's `"class"` entry. -/
def SelectorChain.setFilterClass : SelectorChain → List String → SelectorChain
  | .mk t _ fi nx r pc, fc => .mk t (some fc) fi nx r pc

/-- Functional update of the filter's `"id"` entry. -/
def SelectorChain.setFilterId : SelectorChain → String → SelectorChain
  | .mk t fc _ nx r pc, fi => .mk t fc (some fi) nx r pc

/-- Functional update of `next_selector`. -/
def SelectorChain.setNext : SelectorChain → Option SelectorChain → SelectorChain
  | .mk t fc fi _ r pc, nx => .mk t fc fi nx r pc

/-- Functional update of `relation_to_previous`. -/
def SelectorChain.setRelation : SelectorChain → Relation → SelectorChain
  | .mk t fc fi nx _ pc, r => .mk t fc fi nx r pc

/-- Functional update of `pseudo_class`. -/
def SelectorChain.setPseudo : SelectorChain → Option PseudoClass → SelectorChain
  | .mk t fc fi nx r _, pc => .mk t fc fi nx r pc

/-- Field `type` of a pseudo-class. -/
def PseudoClass.type : PseudoClass → PseudoClassType
  | .mk ty _ => ty

/-- Field `argument` of a pseudo-class. -/
def PseudoClass.argument : PseudoClass → PseudoArg
  | .mk _ a => a

/-- The default-constructed `SelectorChain()`: wildcard tag, empty filter,
no next term, `DESCENDANT` relation, no pseudo-class. -/
def SelectorChain.default : SelectorChain :=
  .mk "" Option.none Option.none Option.none .DESCENDANT Option.none

/-- The Python exceptions the engine can raise, without their messages. -/
inductive PyErr : Type where
  | attributeError
  | valueError
  | typeError
  | indexError
  | recursionError
deriving DecidableEq

/-- Python set add on a class set modelled as a duplicate-free list. -/
def setAdd (l : List String) (s : String) : List String :=
  if l.contains s then l else l ++ [s]

/-- One match of the term tokenizer `_TOKEN_PATTERN`, carrying the matched
text: a tag, a `.class`, a `#id`, or a `:pseudo…` token. -/
inductive Tok : Type where
  | tag (s : String)
  | cls (s : String)
  | idt (s : String)
  | pclass (s : String)

/-- Greedy bounded scan: up to `cap` leading characters satisfying `p`,
with the remainder — the `{0,n}` quantifiers of the token patterns. -/
def spanCap (p : Char → Bool) : List Char → Nat → List Char × List Char
  | [], _ => ([], [])
  | c :: rest, 0 => ([], c :: rest)
  | c :: rest, cap + 1 =>
    if p c then
      let (a, b) := spanCap p rest cap
      (c :: a, b)
    else ([], c :: rest)

/-- Embeds `_TOKEN_PATTERN.finditer` over one term string: leftmost
non-overlapping matches of tag `[a-zA-Z]\w{0,100}`, class
`\.[-a-zA-Z][-\w]{0,100}`, id `#[-a-zA-Z][-\w]{0,100}` and pseudo-class
`:[a-zA-Z\-].{0,100}` (where `.` excludes the newline), tried in that
order; characters that start no token are skipped.  `fuel` only bounds the
scan's recursion and exceeds the input length at every call site. -/
def scanTokens (fuel : Nat) (l : List Char) : List Tok :=
  match fuel, l with
  | 0, _ => []
  | _, [] => []
  | fuel + 1, c :: rest =>
    if isAsciiLetter c then
      let (w, r) := spanCap isWordChar rest 100
      Tok.tag (String.mk (c :: w)) :: scanTokens fuel r
    else if c = '.' then
      match rest with
      | [] => []
      | c2 :: r2 =>
        if c2 = '-' || isAsciiLetter c2 then
          let (w, r) := spanCap isClsChar r2 100
          Tok.cls (String.mk ('.' :: c2 :: w)) :: scanTokens fuel r
        else scanTokens fuel rest
    else if c = '#' then
      match rest with
      | [] => []
      | c2 :: r2 =>
        if c2 = '-' || isAsciiLetter c2 then
          let (w, r) := spanCap isClsChar r2 100
          Tok.idt (String.mk ('#' :: c2 :: w)) :: scanTokens fuel r
        else scanTokens fuel rest
    else if c = ':' then
      match rest with
      | [] => []
      | c2 :: r2 =>
        if isPseudoNameChar c2 then
          let (w, r) := spanCap (fun ch => ch ≠ '\n') r2 100
          Tok.pclass (String.mk (':' :: c2 :: w)) :: scanTokens fuel r
        else scanTokens fuel rest
    else scanTokens fuel rest

mutual

/-- Embeds `_PSEUDO_CLASS_TOKEN_PATTERN.finditer`: every match of
`:(?P<type>[a-zA-Z\-]{1,100})(?P<argument>\([^)]{1,100}\))?`, as
(name without the colon, inner argument text without the parentheses).
When the optional argument group cannot match (no opening parenthesis, an
empty `()`, or no closing parenthesis within 100 characters) the match is
the bare name and scanning resumes right after it, so a later colon —
also one inside a failed argument — can still start a match.  `fuel`
bounds the rescans and exceeds the worst case at every call site. -/
def pseudoFind (fuel : Nat) (l : List Char) : List (String × Option String) :=
  match fuel, l with
  | 0, _ => []
  | _, [] => []
  | fuel + 1, c :: rest =>
    if c = ':' then pseudoNameStart fuel rest else pseudoFind fuel rest

/-- State of `pseudoFind` directly after a colon: a name character starts
a match, another colon restarts this state, anything else starts no match
here. -/
def pseudoNameStart (fuel : Nat) (l : List Char) : List (String × Option String) :=
  match fuel, l with
  | 0, _ => []
  | _, [] => []
  | fuel + 1, c :: rest =>
    if isPseudoNameChar c then pseudoName fuel rest 99 [c]
    else if c = ':' then pseudoNameStart fuel rest
    else pseudoFind fuel rest

/-- State of `pseudoFind` inside a pseudo-class name, `acc` holding it
reversed and `cap` the characters the greedy `{1,100}` may still take. -/
def pseudoName (fuel : Nat) (l : List Char) (cap : Nat) (acc : List Char) :
    List (String × Option String) :=
  match fuel, l with
  | 0, _ => []
  | _, [] => [(String.mk acc.reverse, none)]
  | fuel + 1, c :: rest =>
    if isPseudoNameChar c && cap != 0 then pseudoName fuel rest (cap - 1) (c :: acc)
    else if c = '(' then pseudoArg fuel rest 100 [] acc
    else if c = ':' then (String.mk acc.reverse, none) :: pseudoNameStart fuel rest
    else (String.mk acc.reverse, none) :: pseudoFind fuel rest

/-- State of `pseudoFind` inside a parenthesised argument: `argAcc` holds
the inner text reversed, `cap` the characters `[^)]{1,100}` may still
take.  On failure the match degrades to the bare name and the consumed
characters are rescanned, as the regex engine does. -/
def pseudoArg (fuel : Nat) (l : List Char) (cap : Nat) (argAcc : List Char)
    (nameAcc : List Char) : List (String × Option String) :=
  match fuel, l with
  | 0, _ => []
  | fuel + 1, [] =>
    (String.mk nameAcc.reverse, none) :: pseudoFind fuel ('(' :: argAcc.reverse)
  | fuel + 1, c :: rest =>
    if c = ')' then
      if argAcc.isEmpty then (String.mk nameAcc.reverse, none) :: pseudoFind fuel rest
      else (String.mk nameAcc.reverse, some (String.mk argAcc.reverse)) :: pseudoFind fuel rest
    else if cap = 0 then
      (String.mk nameAcc.reverse, none) :: pseudoFind fuel ('(' :: argAcc.reverse ++ c :: rest)
    else pseudoArg fuel rest (cap - 1) (c :: argAcc) nameAcc

end

/-- Embeds `PseudoClassType(name)`: `none` models the `ValueError` the
enum constructor raises on an unrecognised name. -/
def pyPseudoType (name : String) : Option PseudoClassType :=
  if name = "first-child" then some .FIRST_CHILD
  else if name = "last-child" then some .LAST_CHILD
  else if name = "nth-child" then some .NTH_CHILD
  else if name = "not" then some .NOT
  else none

mutual

/-- Embeds `parse_pseudo_class(pseudo_class)`.  The loop keeps the last
recognised type; an unrecognised name is skipped (`continue`).  For
`:nth-child` the argument goes through `int(...)`, whose `ValueError` on
non-numeric text and `TypeError` on a missing argument propagate; for
`:not` the inner text is parsed recursively as a chain (a missing
argument again raises `TypeError`); other types discard the argument. -/
def parse_pseudo_classF (fuel : Nat) (pseudo_class : List Char) :
    Except PyErr (Option PseudoClass) :=
  match fuel with
  | 0 => .error .recursionError
  | fuel + 1 =>
    if pseudo_class.isEmpty then pure none
    else do
      let n := (pseudo_class.length + 2) * (pseudo_class.length + 2)
      let st ← (pseudoFind n pseudo_class).foldlM
        (fun (st : Option PseudoClassType × PseudoArg) m =>
          match pyPseudoType m.1 with
          | none => pure st
          | some ty =>
            match ty with
            | .NTH_CHILD =>
              match m.2 with
              | none => Except.error PyErr.typeError
              | some a =>
                match pyInt a.data with
                | none => Except.error PyErr.valueError
                | some k => pure (some ty, PseudoArg.int k)
            | .NOT =>
              match m.2 with
              | none => Except.error PyErr.typeError
              | some a => do
                let c ← parse_selector_chainF fuel a.data
                pure (some ty,
                  match c with
                  | none => PseudoArg.none
                  | some ch => PseudoArg.chain ch)
            | _ => pure (some ty, PseudoArg.none))
        (none, PseudoArg.none)
      match st.1 with
      | none => pure none
      | some ty => pure (some (PseudoClass.mk ty st.2))

/-- Embeds `parse_selector_token(selector_token)`: fold the term tokens
into a fresh default term — a tag overwrites `tag_name`, a class joins the
class set, an id overwrites the id, a pseudo-class token replaces
`pseudo_class` with whatever `parse_pseudo_class` yields. -/
def parse_selector_tokenF (fuel : Nat) (selector_token : List Char) :
    Except PyErr SelectorChain :=
  match fuel with
  | 0 => .error .recursionError
  | fuel + 1 =>
    (scanTokens (selector_token.length + 1) selector_token).foldlM
      (fun sel t =>
        match t with
        | Tok.tag s => pure (sel.setTag s)
        | Tok.cls s => pure (sel.setFilterClass (setAdd (sel.filterClass.getD []) (s.drop 1)))
        | Tok.idt s => pure (sel.setFilterId (s.drop 1))
        | Tok.pclass s => do
            let pc ← parse_pseudo_classF fuel s.data
            pure (sel.setPseudo pc))
      SelectorChain.default

/-- Embeds `parse_selector_chain(selector)`: normalize, split on
whitespace, and fold the tokens right-to-left into a chain.  A `>` token
mutates `relation_to_previous` of the chain built so far — on the Python
value `None` (no term yet) that attribute access raises
`AttributeError`.  An input with no tokens yields Python `None`, modelled
as `Option.none`. -/
def parse_selector_chainF (fuel : Nat) (selector : List Char) :
    Except PyErr (Option SelectorChain) :=
  match fuel with
  | 0 => .error .recursionError
  | fuel + 1 =>
    (pySplitChars (normalizeChars selector)).foldlM
      (fun parsed token =>
        if token = ['>'] then
          match parsed with
          | none => Except.error PyErr.attributeError
          | some sel => pure (some (sel.setRelation Relation.IMMEDIATE_CHILD))
        else do
          let cur ← parse_selector_tokenF fuel token
          pure (some (cur.setNext parsed)))
      none

end

/-- Fuel for the parser's `:not` recursion: the regex caps nest at most
two levels deep, so this bound is never reached from string input. -/
def parserFuel : Nat := 1000

/-- Embeds `parse_pseudo_class` on a Python string. -/
def parse_pseudo_class (pseudo_class : String) : Except PyErr (Option PseudoClass) :=
  parse_pseudo_classF parserFuel pseudo_class.data

/-- Embeds `parse_selector_token` on a Python string. -/
def parse_selector_token (selector_token : String) : Except PyErr SelectorChain :=
  parse_selector_tokenF parserFuel selector_token.data

/-- Embeds `parse_selector_chain` on a Python string. -/
def parse_selector_chain (selector : String) : Except PyErr (Option SelectorChain) :=
  parse_selector_chainF parserFuel selector.data

/-- Embeds `parse_selector(query)`: split the query on commas and parse
each piece as a chain, in order, the first exception aborting the whole
list as the eager list comprehension does. -/
def parse_selector (query : String) : Except PyErr (List (Option SelectorChain)) :=
  (splitComma query.data).mapM (parse_selector_chainF parserFuel)

/-- Fuel for the matcher's recursion through `:not` arguments and parent
chains; parsed chains nest `:not` at most one level deep and chains are
bounded by the token count, so this bound is never reached from engine
input. -/
def engineFuel : Nat := 1000

/-- A throwaway node for guarded list indexing; every read of it sits
under a bounds test that rules it out. -/
def dummyNode : Node :=
  Node.mk 0 "" [] [] ""

/-- Embeds `match_class_selector(node, class_set)`: the node's `class`
attribute, split on whitespace, must contain every required class; a node
without a `class` attribute fails. -/
def match_class_selector (node : Node) (class_set : List String) : Bool :=
  match dictLookup node.attributes "class" with
  | none => false
  | some cls => class_set.all (fun c => ((pySplitChars cls.data).map String.mk).contains c)

/-- Embeds `match_id_selector(node, tag_id)`: the node's `id` attribute
must equal the required id; a node without an `id` attribute fails. -/
def match_id_selector (node : Node) (tag_id : String) : Bool :=
  match dictLookup node.attributes "id" with
  | none => false
  | some i => i == tag_id

/-- Embeds `match_first_child_pseudo_class_selector(node, context)`: with
no context the test fails; otherwise the node is compared with `==` (the
structural dataclass equality) against `parent.children[0]`, whose read
raises `IndexError` on a childless parent. -/
def match_first_child_pseudo_class_selector (node : Node) (context : List Node) :
    Except PyErr Bool :=
  match context.getLast? with
  | none => pure false
  | some parent =>
    match parent.children with
    | [] => .error .indexError
    | c :: _ => pure (pyEqNode node c)

/-- Embeds `match_last_child_pseudo_class_selector(node, context)`:
structural `==` against `parent.children[-1]`. -/
def match_last_child_pseudo_class_selector (node : Node) (context : List Node) :
    Except PyErr Bool :=
  match context.getLast? with
  | none => pure false
  | some parent =>
    match parent.children.getLast? with
    | none => .error .indexError
    | some c => pure (pyEqNode node c)

/-- Embeds `match_nth_child_pseudo_class_selector(node, index, context)`:
`0 < index <= len(parent.children)` and structural `==` against
`parent.children[index - 1]` (1-based); the guard makes the indexing
safe, so the test is a total boolean. -/
def match_nth_child_pseudo_class_selector (node : Node) (index : Int)
    (context : List Node) : Bool :=
  match context.getLast? with
  | none => false
  | some parent =>
    decide (0 < index) && decide (index ≤ (parent.children.length : Int)) &&
      pyEqNode node (parent.children.getD (index - 1).toNat dummyNode)

mutual

/-- Embeds `match_selector(node, selector, context)`: tag, class and id
tests in order, each failing early, then the pseudo-class test. -/
def match_selectorF (fuel : Nat) (node : Node) (selector : SelectorChain)
    (context : List Node) : Except PyErr Bool :=
  match fuel with
  | 0 => .error .recursionError
  | fuel + 1 =>
    if selector.tag_name != "" && node.tag != selector.tag_name then pure false
    else if (match selector.filterClass with
        | some cs => !(match_class_selector node cs)
        | none => false) then pure false
    else if (match selector.filterId with
        | some i => !(match_id_selector node i)
        | none => false) then pure false
    else match_pseudo_class_selectorF fuel node selector context

/-- Embeds `match_pseudo_class_selector(node, selector, context)`: a term
without a pseudo-class passes; with one, the dispatch on the type runs
only under a parent (`context[-1]`), and with no parent the function
falls through to `False` for every pseudo-class type.  An `:nth-child`
whose argument is not an `int` raises `TypeError` when compared against
`0`. -/
def match_pseudo_class_selectorF (fuel : Nat) (node : Node)
    (selector : SelectorChain) (context : List Node) : Except PyErr Bool :=
  match fuel with
  | 0 => .error .recursionError
  | fuel + 1 =>
    match selector.pseudo_class with
    | none => pure true
    | some pc =>
      match context.getLast? with
      | none => pure false
      | some _ =>
        match pc.type with
        | .FIRST_CHILD => match_first_child_pseudo_class_selector node context
        | .LAST_CHILD => match_last_child_pseudo_class_selector node context
        | .NTH_CHILD =>
          match pc.argument with
          | .int n => pure (match_nth_child_pseudo_class_selector node n context)
          | _ => .error .typeError
        | .NOT => match_not_pseudo_class_selectorF fuel node pc.argument context

/-- Embeds `match_not_pseudo_class_selector(node, selector, context)`.
The source builds a restricted deep copy of the inner selector
(`next_selector` cleared, relation reset) but then negates
`match_selector` on the original inner selector, so an inner
pseudo-class is still evaluated; the dead copy is observable only through
the `AttributeError` its attribute assignment raises when the argument is
not a selector (Python `None`, an `int` or a `str`). -/
def match_not_pseudo_class_selectorF (fuel : Nat) (node : Node)
    (selector : PseudoArg) (context : List Node) : Except PyErr Bool :=
  match fuel with
  | 0 => .error .recursionError
  | fuel + 1 =>
    match selector with
    | .chain sel => do
      let b ← match_selectorF fuel node sel context
      pure (!b)
    | _ => .error .attributeError

end

/-- `match_selector` at the engine's fuel. -/
def match_selector (node : Node) (selector : SelectorChain)
    (context : List Node) : Except PyErr Bool :=
  match_selectorF engineFuel node selector context

/-- `match_pseudo_class_selector` at the engine's fuel. -/
def match_pseudo_class_selector (node : Node) (selector : SelectorChain)
    (context : List Node) : Except PyErr Bool :=
  match_pseudo_class_selectorF engineFuel node selector context

/-- `match_not_pseudo_class_selector` at the engine's fuel. -/
def match_not_pseudo_class_selector (node : Node) (selector : PseudoArg)
    (context : List Node) : Except PyErr Bool :=
  match_not_pseudo_class_selectorF engineFuel node selector context

/-- The `while parents:` loop of `match_parent_selector` for a
`DESCENDANT` relation, on the reversed parents list so that `pop()` is
the head: scan from the nearest ancestor outward for the first one
matching `parent_selector`, with the list above it (in original order) as
that check's context; yield that remaining list, or `none` when the loop
exhausts (`while`–`else`). -/
def ancestorPopScan (psel : SelectorChain) : List Node → Except PyErr (Option (List Node))
  | [] => pure none
  | p :: above_rev => do
    let rest := above_rev.reverse
    let b ← match_selectorF engineFuel p psel rest
    if b then pure (some rest) else ancestorPopScan psel above_rev

/-- Embeds `match_parent_selector(selector, context)`: with no further
term the chain is satisfied; with one, an empty context fails.  An
`IMMEDIATE_CHILD` relation tests exactly the popped nearest ancestor —
no backtracking — while `DESCENDANT` scans outward for the first
matching ancestor; either way the remaining context above the anchor is
then checked recursively against the rest of the chain.  The context is
deep-copied on entry as the source does. -/
def match_parent_selectorF (fuel : Nat) (selector : SelectorChain)
    (context : List Node) : Except PyErr Bool :=
  match fuel with
  | 0 => .error .recursionError
  | fuel + 1 =>
    let parents := if context.isEmpty then [] else deepcopyCtx context
    match selector.next_selector with
    | none => pure true
    | some parent_selector =>
      if parents.isEmpty then pure false
      else if parent_selector.relation_to_previous = Relation.IMMEDIATE_CHILD then do
        let immediate_parent := parents.getLastD dummyNode
        let rest := parents.dropLast
        let b ← match_selectorF engineFuel immediate_parent parent_selector rest
        if b then match_parent_selectorF fuel parent_selector rest else pure false
      else do
        let r ← ancestorPopScan parent_selector parents.reverse
        match r with
        | none => pure false
        | some rest => match_parent_selectorF fuel parent_selector rest

/-- `match_parent_selector` at the engine's fuel. -/
def match_parent_selector (selector : SelectorChain) (context : List Node) :
    Except PyErr Bool :=
  match_parent_selectorF engineFuel selector context

/-- The per-match deduplication loop shared by `match_selector_chain` and
`query_selector_all`: append each node whose identity is not yet in the
seen set, recording it. -/
def addUnique (acc : List Node × List Nat) : List Node → List Node × List Nat
  | [] => acc
  | m :: ms =>
    if acc.2.contains m.nid then addUnique acc ms
    else addUnique (acc.1 ++ [m], acc.2 ++ [m.nid]) ms

mutual

/-- Embeds `match_selector_chain(node, selector_chain, context)`: a
depth-first pre-order walk emitting every node that passes both the
self test and the parent-hierarchy test, deduplicated by object
identity.  The context is deep-copied on entry and the (original) node
itself is pushed for the children's visits.  On the Python value `None`
in place of a chain, the first attribute access inside `match_selector`
raises `AttributeError`. -/
def match_selector_chain (node : Node) (selector_chain : Option SelectorChain)
    (context : List Node) : Except PyErr (List Node) :=
  match selector_chain with
  | none => .error .attributeError
  | some sc =>
    match node with
    | .mk i t a cs x => do
      let me := Node.mk i t a cs x
      let parents := if context.isEmpty then [] else deepcopyCtx context
      let sm ← match_selectorF engineFuel me sc parents
      let pm ← if sm then match_parent_selectorF engineFuel sc parents else pure false
      let acc0 : List Node × List Nat := if sm && pm then ([me], [i]) else ([], [])
      let res ← matchChainChildren cs (some sc) (parents ++ [me]) acc0
      pure res.1

/-- The `for child in node.children` loop of `match_selector_chain`,
threading the match list and its seen-identity set. -/
def matchChainChildren (cs : List Node) (selector_chain : Option SelectorChain)
    (context : List Node) (acc : List Node × List Nat) :
    Except PyErr (List Node × List Nat) :=
  match cs with
  | [] => pure acc
  | c :: rest => do
    let ms ← match_selector_chain c selector_chain context
    matchChainChildren rest selector_chain context (addUnique acc ms)

end

/-- Embeds `query_selector_all(node, selector)`: parse the query into
chains (eagerly, so a parse exception precedes any matching), match each
chain over the tree in order, and merge the results with identity-based
deduplication, preserving first-seen order. -/
def query_selector_all (node : Node) (selector : String) : Except PyErr (List Node) := do
  let chains ← parse_selector selector
  let res ← chains.foldlM
    (fun acc chain => do
      let select_matches ← match_selector_chain node chain []
      pure (addUnique acc select_matches))
    (([], []) : List Node × List Nat)
  pure res.1

/-- One item of a selector chain string seen through normalization: a
maximal run of characters that are neither whitespace nor `>`, or a `>`
occurrence.  Two strings with the same item sequence differ only in
whitespace runs and in spacing around `>`. -/
inductive SelItem : Type where
  | word (w : List Char)
  | gt
deriving DecidableEq

mutual

/-- The item sequence of a selector chain string: whitespace is dropped,
`>` is an item, and maximal runs of the remaining characters are word
items. -/
def itemize : List Char → List SelItem
  | [] => []
  | c :: rest =>
    if isPySpace c then itemize rest
    else if c = '>' then SelItem.gt :: itemize rest
    else itemizeWord rest [c]

/-- State of `itemize` inside a word, `acc` holding it reversed. -/
def itemizeWord : List Char → List Char → List SelItem
  | [], acc => [SelItem.word acc.reverse]
  | c :: rest, acc =>
    if isPySpace c then SelItem.word acc.reverse :: itemize rest
    else if c = '>' then SelItem.word acc.reverse :: SelItem.gt :: itemize rest
    else itemizeWord rest (c :: acc)

end

/-- The token a normalized item turns into. -/
def renderItem : SelItem → List Char
  | SelItem.word w => w
  | SelItem.gt => ['>']

/-- The token stream of an item sequence. -/
def renderItems (l : List SelItem) : List (List Char) :=
  l.map renderItem

/-- No comma anywhere in the list: the character-level side condition under
which `re.split(r"\s*,\s*", s)` leaves `s` whole. -/
def noCommaB (l : List Char) : Bool :=
  l.all (fun c => c != ',')

/-- The first and last characters (when any) are not whitespace, so that
the separator of `", "` absorbs no characters of the joined pieces. -/
def edgeOkB (l : List Char) : Bool :=
  match l with
  | [] => true
  | c :: _ => !isPySpace c && !isPySpace (l.getLastD ' ')

/-- A three-level tree `root(div) → child(div) → grandchild(p)`: the
combinator-distinction example the spec states. -/
def grandP : Node :=
  Node.mk 3 "p" [] [] "grand"

/-- Middle `div` of `divTree`. -/
def childDiv : Node :=
  Node.mk 2 "div" [] [grandP] "child"

/-- Root of the all-`div` three-level tree. -/
def divTree : Node :=
  Node.mk 1 "div" [] [childDiv] "root"

/-- Grandchild `p` of `spanTree`. -/
def grandPS : Node :=
  Node.mk 6 "p" [] [] "grand"

/-- Middle `span` of `spanTree`. -/
def childSpan : Node :=
  Node.mk 5 "span" [] [grandPS] "child"

/-- A three-level tree `root(div) → child(span) → grandchild(p)` whose
middle tag breaks the direct-parent test. -/
def spanTree : Node :=
  Node.mk 4 "div" [] [childSpan] "root"

/-- First of two structurally identical `p` siblings: distinct objects
(`nid` 11 and 12), equal in every dataclass field. -/
def twinA1 : Node :=
  Node.mk 11 "p" [("class", "t")] [] "twin"

/-- Second structural twin, a different object with the same fields. -/
def twinA2 : Node :=
  Node.mk 12 "p" [("class", "t")] [] "twin"

/-- Parent of the structural twins used against `:first-child` and
`:last-child`. -/
def twinRoot : Node :=
  Node.mk 10 "div" [] [twinA1, twinA2] ""

/-- First of two structurally identical `li` siblings. -/
def twinB1 : Node :=
  Node.mk 21 "li" [] [] "item"

/-- Second structural `li` twin. -/
def twinB2 : Node :=
  Node.mk 22 "li" [] [] "item"

/-- Parent of the `li` twins used against `:nth-child`. -/
def twinBRoot : Node :=
  Node.mk 20 "ul" [] [twinB1, twinB2] ""

/-- First `p` child (also the first child) of `notTree`. -/
def notP1 : Node :=
  Node.mk 31 "p" [] [] "alpha"

/-- Second `p` child of `notTree`, structurally distinct from the
first. -/
def notP2 : Node :=
  Node.mk 32 "p" [] [] "beta"

/-- Tree exercising `:not` with an inner pseudo-class. -/
def notTree : Node :=
  Node.mk 30 "div" [] [notP1, notP2] ""

/-- A parentless `div` with no children: the root for the pseudo-class
at-root claims. -/
def bareRoot : Node :=
  Node.mk 40 "div" [] [] ""

/-- The single-term chain the parser builds for `p`. -/
def pTerm : SelectorChain :=
  SelectorChain.mk "p" none none none .DESCENDANT none

/-- The term the parser builds for `div:not(p)`. -/
def divNotP : SelectorChain :=
  SelectorChain.mk "div" none none none .DESCENDANT
    (some (PseudoClass.mk .NOT (PseudoArg.chain pTerm)))

/-- The trailing whitespace run removed: what remains of a piece when
`re.split`'s separator absorbs the whitespace before the comma. -/
def rstripWs (l : List Char) : List Char :=
  (l.reverse.dropWhile isPySpace).reverse

/-- Identities already recorded stay recorded through `addUnique`. -/
theorem addUnique_ids_mono (ms : List Node) :
    ∀ acc : List Node × List Nat, ∀ n : Nat, acc.2.contains n = true →
      (addUnique acc ms).2.contains n = true := by
  induction ms with
  | nil => intro acc n h; simpa [addUnique] using h
  | cons m rest ih =>
    intro acc n h
    by_cases hm : acc.2.contains m.nid = true
    · rw [addUnique, if_pos hm]; exact ih acc n h
    · rw [addUnique, if_neg hm]
      refine ih (acc.1 ++ [m], acc.2 ++ [m.nid]) n ?_
      have hmem : n ∈ acc.2 := List.mem_of_elem_eq_true h
      exact List.elem_eq_true_of_mem (by simp [hmem])

/-- After `addUnique`, every processed node's identity is recorded. -/
theorem addUnique_mem_ids (ms : List Node) :
    ∀ acc : List Node × List Nat, ∀ m : Node, m ∈ ms →
      (addUnique acc ms).2.contains m.nid = true := by
  induction ms with
  | nil => intro acc m h; cases h
  | cons a rest ih =>
    intro acc m h
    rcases List.mem_cons.mp h with h1 | h2
    · subst h1
      by_cases ha : acc.2.contains m.nid = true
      · rw [addUnique, if_pos ha]; exact addUnique_ids_mono rest acc m.nid ha
      · rw [addUnique, if_neg ha]
        refine addUnique_ids_mono rest (acc.1 ++ [m], acc.2 ++ [m.nid]) m.nid ?_
        exact List.elem_eq_true_of_mem (by simp)
    · by_cases ha : acc.2.contains a.nid = true
      · rw [addUnique, if_pos ha]; exact ih acc m h2
      · rw [addUnique, if_neg ha]; exact ih (acc.1 ++ [a], acc.2 ++ [a.nid]) m h2

/-- `addUnique` is the identity when every processed node's identity is
already recorded. -/
theorem addUnique_noop (ms : List Node) :
    ∀ acc : List Node × List Nat, (∀ m ∈ ms, acc.2.contains m.nid = true) →
      addUnique acc ms = acc := by
  induction ms with
  | nil => intro acc _; rfl
  | cons a rest ih =>
    intro acc h
    have ha : acc.2.contains a.nid = true := h a (by simp)
    rw [addUnique, if_pos ha]
    exact ih acc (fun m hm => h m (by simp [hm]))

/-- Merging the same match list a second time changes nothing: the
identity-based deduplication absorbs repeats. -/
theorem addUnique_twice (acc : List Node × List Nat) (ms : List Node) :
    addUnique (addUnique acc ms) ms = addUnique acc ms :=
  addUnique_noop ms (addUnique acc ms) (fun m hm => addUnique_mem_ids ms acc m hm)

/-- A comma-free suffix joins the current piece whole: the scan emits a
single piece made of the pending segment, pending whitespace and the
suffix. -/
theorem splitCommaGo_noComma (l : List Char) :
    ∀ pend seg : List Char, (∀ c ∈ l, c ≠ ',') →
      splitCommaGo l pend seg = [seg ++ pend ++ l] := by
  induction l with
  | nil => intro pend seg _; simp [splitCommaGo]
  | cons c rest ih =>
    intro pend seg h
    have hc : c ≠ ',' := h c (by simp)
    by_cases hw : isPySpace c = true
    · rw [splitCommaGo]
      simp only [if_neg hc, if_pos hw]
      rw [ih (pend ++ [c]) seg (fun x hx => h x (by simp [hx]))]
      simp
    · rw [splitCommaGo]
      simp only [if_neg hc, if_neg hw]
      rw [ih [] (seg ++ pend ++ [c]) (fun x hx => h x (by simp [hx]))]
      simp

/-- `re.split(r"\s*,\s*", s)` leaves a comma-free string whole. -/
theorem splitComma_single (l : List Char) (h : ∀ c ∈ l, c ≠ ',') :
    splitComma l = [l] := by
  simpa [splitComma] using splitCommaGo_noComma l [] [] h

/-- `mapM` over a two-element repeat where the element fails. -/
theorem mapM_pair_error {α β : Type} (f : α → Except PyErr β) (a : α) (e : PyErr)
    (h : f a = .error e) : List.mapM f [a, a] = .error e := by
  show List.mapM.loop f [a, a] [] = .error e
  rw [List.mapM.loop, h]
  rfl

/-- `mapM` over a two-element repeat where the element succeeds. -/
theorem mapM_pair_ok {α β : Type} (f : α → Except PyErr β) (a : α) (b : β)
    (h : f a = .ok b) : List.mapM f [a, a] = .ok [b, b] := by
  show List.mapM.loop f [a, a] [] = .ok [b, b]
  rw [List.mapM.loop, h]
  show List.mapM.loop f [a] [b] = .ok [b, b]
  rw [List.mapM.loop, h]
  rfl

/-- `mapM` over a singleton, failing element. -/
theorem mapM_single_error {α β : Type} (f : α → Except PyErr β) (a : α) (e : PyErr)
    (h : f a = .error e) : List.mapM f [a] = .error e := by
  show List.mapM.loop f [a] [] = .error e
  rw [List.mapM.loop, h]
  rfl

/-- `mapM` over a singleton, succeeding element. -/
theorem mapM_single_ok {α β : Type} (f : α → Except PyErr β) (a : α) (b : β)
    (h : f a = .ok b) : List.mapM f [a] = .ok [b] := by
  show List.mapM.loop f [a] [] = .ok [b]
  rw [List.mapM.loop, h]
  rfl

/-- Inversion of a successful `Except` bind: the first step succeeded and
its value fed the continuation. -/
theorem bind_eq_ok_inv {α β : Type} (x : Except PyErr α) (f : α → Except PyErr β)
    (b : β) (h : (x >>= f) = .ok b) : ∃ a, x = .ok a ∧ f a = .ok b := by
  cases x with
  | error e => exact absurd h (by simp [Bind.bind, Except.bind])
  | ok a => exact ⟨a, rfl, by simpa [Bind.bind, Except.bind] using h⟩

/-- Every node `addUnique` emits was already emitted or comes from the
processed list. -/
theorem addUnique_subset (ms : List Node) :
    ∀ acc : List Node × List Nat, ∀ m : Node,
      m ∈ (addUnique acc ms).1 → m ∈ acc.1 ∨ m ∈ ms := by
  induction ms with
  | nil => intro acc m h; exact Or.inl h
  | cons a rest ih =>
    intro acc m h
    by_cases ha : acc.2.contains a.nid = true
    · rw [addUnique, if_pos ha] at h
      rcases ih acc m h with h1 | h2
      · exact Or.inl h1
      · exact Or.inr (by simp [h2])
    · rw [addUnique, if_neg ha] at h
      rcases ih (acc.1 ++ [a], acc.2 ++ [a.nid]) m h with h1 | h2
      · rcases List.mem_append.mp h1 with h3 | h4
        · exact Or.inl h3
        · exact Or.inr (by simp [List.mem_singleton.mp h4])
      · exact Or.inr (by simp [h2])

mutual

/-- Every node a successful `match_selector_chain` emits is a node of the
matched subtree — the original object, not one of the deep copies the
matcher makes of its ancestor context. -/
theorem match_selector_chain_mem (node : Node) (chain : Option SelectorChain)
    (ctx : List Node) (ms : List Node)
    (h : match_selector_chain node chain ctx = .ok ms) :
    ∀ m ∈ ms, m ∈ allNodes node := by
  match node, chain with
  | _, none => exact absurd h (by simp [match_selector_chain])
  | .mk i t a cs x, some sc =>
    rw [match_selector_chain] at h
    obtain ⟨sm, hsm, h⟩ := bind_eq_ok_inv _ _ _ h
    cases sm with
    | false =>
      rw [if_neg (by simp)] at h
      obtain ⟨pm, hpm, h⟩ := bind_eq_ok_inv _ _ _ h
      obtain ⟨res, hres, h⟩ := bind_eq_ok_inv _ _ _ h
      have hms : ms = res.1 := by
        have heq : Except.ok res.1 = (Except.ok ms : Except PyErr (List Node)) := h
        cases heq
        rfl
      intro m hm
      rw [hms] at hm
      rcases matchChainChildren_mem cs (some sc) _ _ _ hres m hm with h1 | h2
      · rw [if_neg (by simp)] at h1
        exact absurd h1 (by simp)
      · rw [allNodes]
        simp [h2]
    | true =>
      rw [if_pos rfl] at h
      obtain ⟨pm, hpm, h⟩ := bind_eq_ok_inv _ _ _ h
      obtain ⟨res, hres, h⟩ := bind_eq_ok_inv _ _ _ h
      have hms : ms = res.1 := by
        have heq : Except.ok res.1 = (Except.ok ms : Except PyErr (List Node)) := h
        cases heq
        rfl
      intro m hm
      rw [hms] at hm
      rcases matchChainChildren_mem cs (some sc) _ _ _ hres m hm with h1 | h2
      · by_cases hb : (true && pm) = true
        · rw [if_pos hb] at h1
          have hme : m = Node.mk i t a cs x := by simpa using h1
          rw [allNodes, hme]
          simp
        · rw [if_neg hb] at h1
          exact absurd h1 (by simp)
      · rw [allNodes]
        simp [h2]

/-- The per-children loop only adds nodes of the visited subtrees to the
accumulator. -/
theorem matchChainChildren_mem (cs : List Node) (chain : Option SelectorChain)
    (ctx : List Node) (acc : List Node × List Nat) (r : List Node × List Nat)
    (h : matchChainChildren cs chain ctx acc = .ok r) :
    ∀ m ∈ r.1, m ∈ acc.1 ∨ m ∈ allNodesList cs := by
  match cs with
  | [] =>
    have har : acc = r := by
      have heq : Except.ok acc = (Except.ok r : Except PyErr (List Node × List Nat)) := h
      cases heq
      rfl
    intro m hm
    rw [← har] at hm
    exact Or.inl hm
  | c :: rest =>
    rw [matchChainChildren] at h
    obtain ⟨ms', hms', h⟩ := bind_eq_ok_inv _ _ _ h
    intro m hm
    rcases matchChainChildren_mem rest chain ctx (addUnique acc ms') r h m hm with h1 | h2
    · rcases addUnique_subset ms' acc m h1 with h3 | h4
      · exact Or.inl h3
      · refine Or.inr ?_
        rw [allNodesList]
        exact List.mem_append.mpr (Or.inl (match_selector_chain_mem c chain ctx ms' hms' m h4))
    · refine Or.inr ?_
      rw [allNodesList]
      exact List.mem_append.mpr (Or.inr h2)

end

/-- The cross-alternative merge loop of `query_selector_all` only ever
adds nodes of the queried tree. -/
theorem queryFold_mem (node : Node) (chains : List (Option SelectorChain)) :
    ∀ acc r : List Node × List Nat,
      List.foldlM
        (fun acc chain => do
          let select_matches ← match_selector_chain node chain []
          pure (addUnique acc select_matches)) acc chains = .ok r →
      ∀ m ∈ r.1, m ∈ acc.1 ∨ m ∈ allNodes node := by
  induction chains with
  | nil =>
    intro acc r h m hm
    have har : acc = r := by
      have heq : Except.ok acc = (Except.ok r : Except PyErr (List Node × List Nat)) := h
      cases heq
      rfl
    rw [← har] at hm
    exact Or.inl hm
  | cons ch rest ih =>
    intro acc r h m hm
    rw [List.foldlM_cons] at h
    obtain ⟨acc', hacc', h⟩ := bind_eq_ok_inv _ _ _ h
    obtain ⟨sm, hsm, hp⟩ := bind_eq_ok_inv _ _ _ hacc'
    have hacc2 : acc' = addUnique acc sm := by
      have heq : Except.ok (addUnique acc sm) = (Except.ok acc' : Except PyErr (List Node × List Nat)) := hp
      cases heq
      rfl
    rcases ih acc' r h m hm with h1 | h2
    · rw [hacc2] at h1
      rcases addUnique_subset sm acc m h1 with h3 | h4
      · exact Or.inl h3
      · exact Or.inr (match_selector_chain_mem node ch [] sm hsm m h4)
    · exact Or.inr h2

/-- C10: `query_selector_all` never rebuilds the tree — every node a
successful call returns is a node of the input tree, the same object
(equal including its identity `nid`) rather than one of the deep copies
the matcher makes of its ancestor-context list; in this pure embedding
the input tree itself is untouched by construction. -/
theorem query_selector_all_mem (node : Node) (s : String) (ms : List Node)
    (h : query_selector_all node s = .ok ms) : ∀ m ∈ ms, m ∈ allNodes node := by
  unfold query_selector_all at h
  obtain ⟨chains, hchains, h⟩ := bind_eq_ok_inv _ _ _ h
  obtain ⟨res, hres, h⟩ := bind_eq_ok_inv _ _ _ h
  have hms : ms = res.1 := by
    have heq : Except.ok res.1 = (Except.ok ms : Except PyErr (List Node)) := h
    cases heq
    rfl
  intro m hm
  rw [hms] at hm
  rcases queryFold_mem node chains ([], []) res hres m hm with h1 | h2
  · exact absurd h1 (by simp)
  · exact h2

/-- The space character is Python whitespace. -/
theorem isPySpace_space : isPySpace ' ' = true := rfl

/-- `>` is not Python whitespace. -/
theorem isPySpace_gt : isPySpace '>' = false := rfl

/-- A whitespace prefix is skipped by the splitter when no word is
pending. -/
theorem pySplitGo_ws_prefix_nil (w : List Char) :
    ∀ X : List Char, (∀ c ∈ w, isPySpace c = true) →
      pySplitGo (w ++ X) [] = pySplitGo X [] := by
  induction w with
  | nil => intro X _; rfl
  | cons c rest ih =>
    intro X h
    have hc : isPySpace c = true := h c (by simp)
    rw [List.cons_append, pySplitGo]
    simp only [hc, if_true, List.isEmpty_nil, ite_true, if_pos]
    exact ih X (fun x hx => h x (by simp [hx]))

/-- A whitespace list yields no token. -/
theorem pySplitGo_ws_nil (w : List Char) (h : ∀ c ∈ w, isPySpace c = true) :
    pySplitGo w [] = [] := by
  have := pySplitGo_ws_prefix_nil w [] h
  simpa using this

/-- A nonempty whitespace prefix flushes the pending word. -/
theorem pySplitGo_ws_prefix_flush (w : List Char) (X acc : List Char)
    (h : ∀ c ∈ w, isPySpace c = true) (hw : w ≠ []) (hacc : acc ≠ []) :
    pySplitGo (w ++ X) acc = acc.reverse :: pySplitGo X [] := by
  match w with
  | [] => exact absurd rfl hw
  | c :: rest =>
    have hc : isPySpace c = true := h c (by simp)
    rw [List.cons_append, pySplitGo]
    have hne : acc.isEmpty = false := by
      cases acc with
      | nil => exact absurd rfl hacc
      | cons a as => rfl
    simp only [hc, if_true, hne, Bool.false_eq_true, ite_false, if_pos]
    rw [pySplitGo_ws_prefix_nil rest X (fun x hx => h x (by simp [hx]))]

/-- Collapsing whitespace runs does not change the item sequence: the
conjunction covering `subSpace`, its in-run state, and the in-word
state, proved by strong induction on the length. -/
theorem subSpace_itemize_aux :
    ∀ n : Nat, ∀ l : List Char, l.length ≤ n →
      itemize (subSpace l) = itemize l ∧
      itemize (subSpaceSkip l) = itemize l ∧
      (∀ acc, itemizeWord (subSpace l) acc = itemizeWord l acc) := by
  intro n
  induction n with
  | zero =>
    intro l hl
    have hnil : l = [] := List.eq_nil_of_length_eq_zero (Nat.le_zero.mp hl)
    subst hnil
    exact ⟨rfl, rfl, fun acc => rfl⟩
  | succ n ih =>
    intro l hl
    match l with
    | [] => exact ⟨rfl, rfl, fun acc => rfl⟩
    | c :: rest =>
      have hr : rest.length ≤ n := by
        have : rest.length + 1 ≤ n + 1 := by simpa using hl
        omega
      obtain ⟨ihS1, ihS2, ihS3⟩ := ih rest hr
      by_cases hw : isPySpace c = true
      · refine ⟨?_, ?_, ?_⟩
        · rw [subSpace]
          simp only [hw, if_true, if_pos]
          rw [itemize]
          simp only [isPySpace_space, if_true, if_pos]
          rw [ihS2, itemize]
          simp [hw]
        · rw [subSpaceSkip]
          simp only [hw, if_true, if_pos]
          rw [ihS2, itemize]
          simp [hw]
        · intro acc
          rw [subSpace]
          simp only [hw, if_true, if_pos]
          rw [itemizeWord]
          simp only [isPySpace_space, if_true, if_pos]
          rw [ihS2, itemizeWord]
          simp [hw]
      · have hwf : isPySpace c = false := by
          cases hcv : isPySpace c with
          | false => rfl
          | true => exact absurd hcv hw
        by_cases hg : c = '>'
        · subst hg
          refine ⟨?_, ?_, ?_⟩
          · rw [subSpace]
            simp only [hwf, Bool.false_eq_true, ite_false, if_neg]
            rw [itemize, itemize]
            simp only [isPySpace_gt, hwf, Bool.false_eq_true, ite_false, if_neg, if_pos rfl]
            simp [ihS1]
          · rw [subSpaceSkip]
            simp only [hwf, Bool.false_eq_true, ite_false, if_neg]
            rw [itemize, itemize]
            simp only [isPySpace_gt, hwf, Bool.false_eq_true, ite_false, if_neg, if_pos rfl]
            simp [ihS1]
          · intro acc
            rw [subSpace]
            simp only [hwf, Bool.false_eq_true, ite_false, if_neg]
            rw [itemizeWord, itemizeWord]
            simp only [isPySpace_gt, hwf, Bool.false_eq_true, ite_false, if_neg, if_pos rfl]
            simp [ihS1]
        · refine ⟨?_, ?_, ?_⟩
          · rw [subSpace]
            simp only [hwf, Bool.false_eq_true, ite_false, if_neg]
            rw [itemize, itemize]
            simp only [hwf, Bool.false_eq_true, ite_false, if_neg, if_neg hg]
            exact ihS3 [c]
          · rw [subSpaceSkip]
            simp only [hwf, Bool.false_eq_true, ite_false, if_neg]
            rw [itemize, itemize]
            simp only [hwf, Bool.false_eq_true, ite_false, if_neg, if_neg hg]
            exact ihS3 [c]
          · intro acc
            rw [subSpace]
            simp only [hwf, Bool.false_eq_true, ite_false, if_neg]
            rw [itemizeWord, itemizeWord]
            simp only [hwf, Bool.false_eq_true, ite_false, if_neg, if_neg hg]
            exact ihS3 (c :: acc)

/-- Collapsing whitespace runs preserves the item sequence. -/
theorem itemize_subSpace (l : List Char) : itemize (subSpace l) = itemize l :=
  (subSpace_itemize_aux l.length l (Nat.le_refl _)).1

/-- The `" > "` padding emitted for a `>` match becomes exactly one `>`
token when no word is pending. -/
theorem pySplitGo_gt_emit (A : List Char) :
    pySplitGo (' ' :: '>' :: ' ' :: A) [] = ['>'] :: pySplitGo A [] := rfl

/-- The `" > "` padding flushes the pending word and becomes a `>`
token. -/
theorem pySplitGo_gt_emit_acc (A acc : List Char) (h : acc ≠ []) :
    pySplitGo (' ' :: '>' :: ' ' :: A) acc = acc.reverse :: ['>'] :: pySplitGo A [] := by
  match acc with
  | a :: as => rfl

/-- Splitting the `>`-padded string on whitespace yields exactly the
rendered item sequence: the conjunction covering both scanner states and
both splitter states, proved by strong induction on the length. -/
theorem subChild_tokens_aux :
    ∀ n : Nat, ∀ l : List Char, l.length ≤ n →
      (∀ pend, (∀ c ∈ pend, isPySpace c = true) →
        pySplitGo (subChildGo l pend) [] = renderItems (itemize l)) ∧
      (pySplitGo (subChildAfterGt l) [] = renderItems (itemize l)) ∧
      (∀ acc, acc ≠ [] →
        pySplitGo (subChildGo l []) acc = renderItems (itemizeWord l acc)) ∧
      (∀ pend acc, (∀ c ∈ pend, isPySpace c = true) → pend ≠ [] → acc ≠ [] →
        pySplitGo (subChildGo l pend) acc = acc.reverse :: renderItems (itemize l)) := by
  intro n
  induction n with
  | zero =>
    intro l hl
    have hnil : l = [] := List.eq_nil_of_length_eq_zero (Nat.le_zero.mp hl)
    subst hnil
    refine ⟨?_, rfl, ?_, ?_⟩
    · intro pend hp
      rw [subChildGo]
      rw [pySplitGo_ws_nil pend.reverse (fun x hx => hp x (List.mem_reverse.mp hx))]
      rfl
    · intro acc hacc
      rw [subChildGo]
      match acc with
      | a :: as => rfl
    · intro pend acc hp hpne hacc
      rw [subChildGo]
      have := pySplitGo_ws_prefix_flush pend.reverse [] acc
        (fun x hx => hp x (List.mem_reverse.mp hx))
        (fun hx => hpne (by simpa using List.reverse_eq_nil_iff.mp hx)) hacc
      simpa using this
  | succ n ih =>
    intro l hl
    match l with
    | [] =>
      refine ⟨?_, rfl, ?_, ?_⟩
      · intro pend hp
        rw [subChildGo]
        rw [pySplitGo_ws_nil pend.reverse (fun x hx => hp x (List.mem_reverse.mp hx))]
        rfl
      · intro acc hacc
        rw [subChildGo]
        match acc with
        | a :: as => rfl
      · intro pend acc hp hpne hacc
        rw [subChildGo]
        have := pySplitGo_ws_prefix_flush pend.reverse [] acc
          (fun x hx => hp x (List.mem_reverse.mp hx))
          (fun hx => hpne (by simpa using List.reverse_eq_nil_iff.mp hx)) hacc
        simpa using this
    | c :: rest =>
      have hr : rest.length ≤ n := by
        have : rest.length + 1 ≤ n + 1 := by simpa using hl
        omega
      obtain ⟨ihG1, ihG2, ihG3, ihG4⟩ := ih rest hr
      by_cases hg : c = '>'
      · subst hg
        have hnw : ¬(isPySpace '>' = true) := by simp [isPySpace_gt]
        refine ⟨?_, ?_, ?_, ?_⟩
        · intro pend hp
          rw [subChildGo, if_pos rfl, pySplitGo_gt_emit, ihG2, itemize]
          simp [isPySpace_gt, renderItems, renderItem]
        · rw [subChildAfterGt, if_neg hnw, if_pos rfl, pySplitGo_gt_emit, ihG2, itemize]
          simp [isPySpace_gt, renderItems, renderItem]
        · intro acc hacc
          rw [subChildGo, if_pos rfl, pySplitGo_gt_emit_acc _ acc hacc, ihG2, itemizeWord]
          simp [isPySpace_gt, renderItems, renderItem]
        · intro pend acc hp hpne hacc
          rw [subChildGo, if_pos rfl, pySplitGo_gt_emit_acc _ acc hacc, ihG2, itemize]
          simp [isPySpace_gt, renderItems, renderItem]
      · by_cases hw : isPySpace c = true
        · have hgne : ¬(c = '>') := hg
          refine ⟨?_, ?_, ?_, ?_⟩
          · intro pend hp
            rw [subChildGo]
            simp only [if_neg hgne, hw, if_true, if_pos]
            rw [ihG1 (c :: pend) (by
              intro x hx
              rcases List.mem_cons.mp hx with h1 | h2
              · rw [h1]; exact hw
              · exact hp x h2)]
            rw [itemize]
            simp [hw]
          · rw [subChildAfterGt]
            simp only [hw, if_true, if_pos]
            rw [ihG2, itemize]
            simp [hw]
          · intro acc hacc
            rw [subChildGo]
            simp only [if_neg hgne, hw, if_true, if_pos]
            rw [ihG4 [c] acc (by intro x hx; simp at hx; rw [hx]; exact hw)
              (by simp) hacc]
            rw [itemizeWord]
            simp [hw, renderItems, renderItem]
          · intro pend acc hp hpne hacc
            rw [subChildGo]
            simp only [if_neg hgne, hw, if_true, if_pos]
            rw [ihG4 (c :: pend) acc (by
              intro x hx
              rcases List.mem_cons.mp hx with h1 | h2
              · rw [h1]; exact hw
              · exact hp x h2) (by simp) hacc]
            rw [itemize]
            simp [hw]
        · have hwf : isPySpace c = false := by
            cases hcv : isPySpace c with
            | false => rfl
            | true => exact absurd hcv hw
          refine ⟨?_, ?_, ?_, ?_⟩
          · intro pend hp
            rw [subChildGo]
            simp only [if_neg hg, hwf, Bool.false_eq_true, ite_false, if_neg]
            rw [pySplitGo_ws_prefix_nil pend.reverse _
              (fun x hx => hp x (List.mem_reverse.mp hx))]
            rw [show pySplitGo (c :: subChildGo rest []) [] =
                pySplitGo (subChildGo rest []) [c] from by
              rw [pySplitGo]; simp [hwf]]
            rw [ihG3 [c] (by simp)]
            rw [itemize]
            simp [hwf, hg]
          · rw [subChildAfterGt]
            simp only [hwf, Bool.false_eq_true, ite_false, if_neg, if_neg hg]
            rw [show pySplitGo (c :: subChildGo rest []) [] =
                pySplitGo (subChildGo rest []) [c] from by
              rw [pySplitGo]; simp [hwf]]
            rw [ihG3 [c] (by simp)]
            rw [itemize]
            simp [hwf, hg]
          · intro acc hacc
            rw [subChildGo]
            simp only [if_neg hg, hwf, Bool.false_eq_true, ite_false, if_neg]
            rw [show pySplitGo (List.reverse [] ++ c :: subChildGo rest []) acc =
                pySplitGo (subChildGo rest []) (c :: acc) from by
              rw [List.reverse_nil, List.nil_append, pySplitGo]; simp [hwf]]
            rw [ihG3 (c :: acc) (by simp)]
            rw [itemizeWord]
            simp [hwf, hg]
          · intro pend acc hp hpne hacc
            rw [subChildGo]
            simp only [if_neg hg, hwf, Bool.false_eq_true, ite_false, if_neg]
            rw [pySplitGo_ws_prefix_flush pend.reverse (c :: subChildGo rest []) acc
              (fun x hx => hp x (List.mem_reverse.mp hx))
              (fun hx => hpne (by simpa using List.reverse_eq_nil_iff.mp hx)) hacc]
            rw [show pySplitGo (c :: subChildGo rest []) [] =
                pySplitGo (subChildGo rest []) [c] from by
              rw [pySplitGo]; simp [hwf]]
            rw [ihG3 [c] (by simp)]
            rw [itemize]
            simp [hwf, hg]

/-- The token stream of a normalized selector chain string is exactly its
rendered item sequence: normalization only standardizes whitespace and
`>` spacing. -/
theorem tokens_normalize (l : List Char) :
    pySplitChars (normalizeChars l) = renderItems (itemize l) := by
  have h := (subChild_tokens_aux (subSpace l).length (subSpace l) (Nat.le_refl _)).1
  have h2 := h [] (by intro x hx; cases hx)
  rw [pySplitChars, normalizeChars, subChild]
  rw [h2, itemize_subSpace]

/-- Chain strings with the same item sequence parse to the same chain:
after normalization they produce the same token stream, and parsing only
sees tokens. -/
theorem parse_selector_chainF_itemize (fuel : Nat) (s t : List Char)
    (h : itemize s = itemize t) :
    parse_selector_chainF fuel s = parse_selector_chainF fuel t := by
  match fuel with
  | 0 => rfl
  | fuel + 1 =>
    show (pySplitChars (normalizeChars s)).foldlM _ _ =
      (pySplitChars (normalizeChars t)).foldlM _ _
    rw [tokens_normalize s, tokens_normalize t, h]

/-- Comma-free queries with the same item sequence produce identical query
results on every tree. -/
theorem query_itemize (node : Node) (s t : String)
    (hi : itemize s.data = itemize t.data)
    (hs : noCommaB s.data = true) (ht : noCommaB t.data = true) :
    query_selector_all node s = query_selector_all node t := by
  have hs' : ∀ c ∈ s.data, c ≠ ',' := by
    intro c hcmem
    simpa using List.all_eq_true.mp hs c hcmem
  have ht' : ∀ c ∈ t.data, c ≠ ',' := by
    intro c hcmem
    simpa using List.all_eq_true.mp ht c hcmem
  have hp := parse_selector_chainF_itemize parserFuel s.data t.data hi
  unfold query_selector_all parse_selector
  rw [splitComma_single s.data hs', splitComma_single t.data ht']
  cases hpc : parse_selector_chainF parserFuel s.data with
  | error e =>
    have hpc2 : parse_selector_chainF parserFuel t.data = .error e := hp ▸ hpc
    rw [mapM_single_error _ _ _ hpc, mapM_single_error _ _ _ hpc2]
  | ok c =>
    have hpc2 : parse_selector_chainF parserFuel t.data = .ok c := hp ▸ hpc
    rw [mapM_single_ok _ _ _ hpc, mapM_single_ok _ _ _ hpc2]

/-- Dropping while scanning stops at the first failing element, wherever
the split around it is placed. -/
theorem dropWhile_append_stop (p : Char → Bool) (a : List Char) (c : Char)
    (b : List Char) (h : p c = false) :
    List.dropWhile p (a ++ c :: b) = List.dropWhile p a ++ c :: b := by
  rw [List.dropWhile_append]
  by_cases he : (List.dropWhile p a).isEmpty = true
  · rw [if_pos he, List.dropWhile_cons, h]
    have hnil : List.dropWhile p a = [] := by simpa [List.isEmpty_iff] using he
    simp [hnil]
  · rw [if_neg he]

/-- Splitting from the after-comma state on a comma-free remainder yields
the remainder with its leading whitespace absorbed by the separator. -/
theorem splitCommaSkip_noComma (s : List Char) (h : ∀ c ∈ s, c ≠ ',') :
    splitCommaSkip s = [s.dropWhile isPySpace] := by
  induction s with
  | nil => rfl
  | cons c rest ih =>
    have hc : c ≠ ',' := h c (by simp)
    by_cases hw : isPySpace c = true
    · rw [splitCommaSkip]
      simp only [hw, if_true, if_pos]
      rw [ih (fun x hx => h x (by simp [hx])), List.dropWhile_cons, hw]
      simp
    · have hwf : isPySpace c = false := by
        cases hcv : isPySpace c with
        | false => rfl
        | true => exact absurd hcv hw
      rw [splitCommaSkip]
      simp only [hwf, Bool.false_eq_true, ite_false, if_neg, if_neg hc]
      rw [splitCommaGo_noComma rest [] [c] (fun x hx => h x (by simp [hx]))]
      rw [List.dropWhile_cons, hwf]
      simp

/-- Removing a non-whitespace character's following suffix only: stripping
the trailing run distributes over a split at a failing character. -/
theorem rstripWs_append_cons (x : List Char) (c : Char) (y : List Char)
    (h : isPySpace c = false) :
    rstripWs (x ++ c :: y) = x ++ c :: rstripWs y := by
  rw [rstripWs, rstripWs]
  rw [List.reverse_append, List.reverse_cons]
  simp only [List.append_assoc, List.singleton_append]
  rw [dropWhile_append_stop isPySpace y.reverse c x.reverse h]
  simp

/-- A whitespace-only list strips to nothing. -/
theorem rstripWs_wsOnly (w : List Char) (h : ∀ c ∈ w, isPySpace c = true) :
    rstripWs w = [] := by
  rw [rstripWs, List.dropWhile_eq_nil_iff.mpr, List.reverse_nil]
  intro x hx
  exact h x (List.mem_reverse.mp hx)

/-- Scanning a comma-free piece followed by a comma emits the piece with
its trailing whitespace absorbed by the separator; `pend` holds the
whitespace run already buffered. -/
theorem splitCommaGo_sep_strip (l : List Char) :
    ∀ pend seg k : List Char, (∀ c ∈ l, c ≠ ',') →
      (∀ c ∈ pend, isPySpace c = true) →
      splitCommaGo (l ++ ',' :: k) pend seg =
        (seg ++ rstripWs (pend ++ l)) :: splitCommaSkip k := by
  induction l with
  | nil =>
    intro pend seg k _ hp
    rw [List.nil_append, splitCommaGo, if_pos rfl]
    rw [List.append_nil, rstripWs_wsOnly pend hp]
    simp
  | cons c rest ih =>
    intro pend seg k h hp
    have hc : c ≠ ',' := h c (by simp)
    by_cases hw : isPySpace c = true
    · rw [List.cons_append, splitCommaGo]
      simp only [if_neg hc, hw, if_true, if_pos]
      rw [ih (pend ++ [c]) seg k (fun x hx => h x (by simp [hx])) (by
        intro x hx
        rcases List.mem_append.mp hx with h1 | h2
        · exact hp x h1
        · rw [List.mem_singleton.mp h2]; exact hw)]
      simp
    · have hwf : isPySpace c = false := by
        cases hcv : isPySpace c with
        | false => rfl
        | true => exact absurd hcv hw
      rw [List.cons_append, splitCommaGo]
      simp only [if_neg hc, hwf, Bool.false_eq_true, ite_false, if_neg]
      rw [ih [] (seg ++ pend ++ [c]) k (fun x hx => h x (by simp [hx]))
        (by intro x hx; cases hx)]
      rw [show pend ++ c :: rest = pend ++ c :: rest from rfl]
      rw [rstripWs_append_cons pend c rest hwf]
      simp

/-- Joining a comma-free piece with itself through `", "` splits into the
trailing-stripped and leading-stripped copies. -/
theorem splitComma_doubled_strip (l : List Char) (h : ∀ c ∈ l, c ≠ ',') :
    splitComma (l ++ ',' :: ' ' :: l) = [rstripWs l, l.dropWhile isPySpace] := by
  rw [splitComma, splitCommaGo_sep_strip l [] [] (' ' :: l) h (by intro x hx; cases hx)]
  rw [show splitCommaSkip (' ' :: l) = splitCommaSkip l from by
    rw [splitCommaSkip]; simp [isPySpace_space]]
  rw [splitCommaSkip_noComma l h]
  simp

/-- A whitespace-only string has no items. -/
theorem itemize_wsOnly (w : List Char) (h : ∀ c ∈ w, isPySpace c = true) :
    itemize w = [] := by
  induction w with
  | nil => rfl
  | cons c rest ih =>
    rw [itemize]
    simp only [h c (by simp), if_true, if_pos]
    exact ih (fun x hx => h x (by simp [hx]))

/-- A whitespace-only remainder closes the pending word and adds no
item. -/
theorem itemizeWord_wsOnly (w : List Char) (h : ∀ c ∈ w, isPySpace c = true) :
    ∀ acc, itemizeWord w acc = [SelItem.word acc.reverse] := by
  match w with
  | [] => intro acc; rfl
  | c :: rest =>
    intro acc
    rw [itemizeWord]
    simp only [h c (by simp), if_true, if_pos]
    rw [itemize_wsOnly rest (fun x hx => h x (by simp [hx]))]

/-- Appending trailing whitespace changes no item, in either scanner
state. -/
theorem itemize_append_ws (x : List Char) :
    ∀ w : List Char, (∀ c ∈ w, isPySpace c = true) →
      itemize (x ++ w) = itemize x ∧
      (∀ acc, itemizeWord (x ++ w) acc = itemizeWord x acc) := by
  induction x with
  | nil =>
    intro w h
    refine ⟨by simpa using itemize_wsOnly w h, ?_⟩
    intro acc
    simpa using itemizeWord_wsOnly w h acc
  | cons c rest ih =>
    intro w h
    obtain ⟨ih1, ih2⟩ := ih w h
    by_cases hw : isPySpace c = true
    · constructor
      · rw [List.cons_append, itemize, itemize]
        simp only [hw, if_true, if_pos]
        exact ih1
      · intro acc
        rw [List.cons_append, itemizeWord, itemizeWord]
        simp only [hw, if_true, if_pos]
        rw [ih1]
    · have hwf : isPySpace c = false := by
        cases hcv : isPySpace c with
        | false => rfl
        | true => exact absurd hcv hw
      by_cases hg : c = '>'
      · constructor
        · rw [List.cons_append, itemize, itemize]
          simp only [hwf, Bool.false_eq_true, ite_false, if_neg, if_pos hg]
          rw [ih1]
        · intro acc
          rw [List.cons_append, itemizeWord, itemizeWord]
          simp only [hwf, Bool.false_eq_true, ite_false, if_neg, if_pos hg]
          rw [ih1]
      · constructor
        · rw [List.cons_append, itemize, itemize]
          simp only [hwf, Bool.false_eq_true, ite_false, if_neg, if_neg hg]
          exact ih2 [c]
        · intro acc
          rw [List.cons_append, itemizeWord, itemizeWord]
          simp only [hwf, Bool.false_eq_true, ite_false, if_neg, if_neg hg]
          exact ih2 (c :: acc)

/-- Stripping the trailing whitespace run preserves the item sequence. -/
theorem itemize_rstripWs (l : List Char) : itemize (rstripWs l) = itemize l := by
  have hdec : rstripWs l ++ (l.reverse.takeWhile isPySpace).reverse = l := by
    rw [rstripWs, ← List.reverse_append, List.takeWhile_append_dropWhile,
      List.reverse_reverse]
  have hws : ∀ c ∈ (l.reverse.takeWhile isPySpace).reverse, isPySpace c = true := by
    intro c hc
    exact List.mem_takeWhile_imp (List.mem_reverse.mp hc)
  calc itemize (rstripWs l)
      = itemize (rstripWs l ++ (l.reverse.takeWhile isPySpace).reverse) :=
        ((itemize_append_ws (rstripWs l) _ hws).1).symm
    _ = itemize l := by rw [hdec]

/-- Stripping the leading whitespace run preserves the item sequence. -/
theorem itemize_dropWhileWs (l : List Char) :
    itemize (l.dropWhile isPySpace) = itemize l := by
  induction l with
  | nil => rfl
  | cons c rest ih =>
    by_cases hw : isPySpace c = true
    · rw [List.dropWhile_cons, hw]
      simp only [if_true, if_pos]
      rw [ih, itemize]
      simp [hw]
    · have hwf : isPySpace c = false := by
        cases hcv : isPySpace c with
        | false => rfl
        | true => exact absurd hcv hw
      rw [List.dropWhile_cons, hwf]
      simp

/-- `mapM` over two pieces where the first fails. -/
theorem mapM_two_error {α β : Type} (f : α → Except PyErr β) (a1 a2 : α) (e : PyErr)
    (h : f a1 = .error e) : List.mapM f [a1, a2] = .error e := by
  show List.mapM.loop f [a1, a2] [] = .error e
  rw [List.mapM.loop, h]
  rfl

/-- `mapM` over two pieces that both succeed with the same value. -/
theorem mapM_two_ok {α β : Type} (f : α → Except PyErr β) (a1 a2 : α) (b : β)
    (h1 : f a1 = .ok b) (h2 : f a2 = .ok b) : List.mapM f [a1, a2] = .ok [b, b] := by
  show List.mapM.loop f [a1, a2] [] = .ok [b, b]
  rw [List.mapM.loop, h1]
  show List.mapM.loop f [a2] [b] = .ok [b, b]
  rw [List.mapM.loop, h2]
  rfl

/-- C8: repeating a comma-free alternative through a `", "` join queries
exactly like the single alternative, on every tree: the separator absorbs
the adjacent whitespace, each resulting piece normalizes to the same
token stream as the original, and the identity-based merge removes
duplicates by node identity while preserving first-seen order. -/
theorem query_repeat_alternative (node : Node) (s : String)
    (hnc : noCommaB s.data = true) :
    query_selector_all node (s ++ ", " ++ s) = query_selector_all node s := by
  have hnc' : ∀ c ∈ s.data, c ≠ ',' := by
    intro c hcmem
    simpa using List.all_eq_true.mp hnc c hcmem
  have hchars : (s ++ ", " ++ s).data = s.data ++ ',' :: ' ' :: s.data := by
    show (s.data ++ [',', ' ']) ++ s.data = s.data ++ ',' :: ' ' :: s.data
    simp
  have hsplit2 : splitComma (s ++ ", " ++ s).data =
      [rstripWs s.data, s.data.dropWhile isPySpace] := by
    rw [hchars]
    exact splitComma_doubled_strip s.data hnc'
  have hsplit1 : splitComma s.data = [s.data] := splitComma_single s.data hnc'
  have hp1 : parse_selector_chainF parserFuel (rstripWs s.data) =
      parse_selector_chainF parserFuel s.data :=
    parse_selector_chainF_itemize parserFuel _ _ (itemize_rstripWs s.data)
  have hp2 : parse_selector_chainF parserFuel (s.data.dropWhile isPySpace) =
      parse_selector_chainF parserFuel s.data :=
    parse_selector_chainF_itemize parserFuel _ _ (itemize_dropWhileWs s.data)
  unfold query_selector_all parse_selector
  rw [hsplit2, hsplit1]
  cases hpc : parse_selector_chainF parserFuel s.data with
  | error e =>
    rw [mapM_two_error _ _ _ _ (hp1.trans hpc), mapM_single_error _ _ _ hpc]
  | ok c =>
    rw [mapM_two_ok _ _ _ _ (hp1.trans hpc) (hp2.trans hpc), mapM_single_ok _ _ _ hpc]
    show (do
        let res ← List.foldlM
          (fun acc chain => do
            let select_matches ← match_selector_chain node chain []
            pure (addUnique acc select_matches)) ([], []) [c, c]
        pure res.1) =
      (do
        let res ← List.foldlM
          (fun acc chain => do
            let select_matches ← match_selector_chain node chain []
            pure (addUnique acc select_matches)) ([], []) [c]
        pure res.1)
    cases hms : match_selector_chain node c [] with
    | error e =>
      simp only [List.foldlM_cons, List.foldlM_nil, hms]
      rfl
    | ok ms =>
      simp only [List.foldlM_cons, List.foldlM_nil, hms]
      show Except.ok (addUnique (addUnique ([], []) ms) ms).1 =
        Except.ok (addUnique ([], []) ms).1
      rw [addUnique_twice]

/-- The last element of a nonempty list through `getLast?`, expressed with
the default-carrying accessor. -/
theorem getLast?_cons_getLastD {α : Type} (a : α) (l : List α) :
    (a :: l).getLast? = some (l.getLastD a) := by
  induction l generalizing a with
  | nil => rfl
  | cons b l' ih => rw [List.getLast?_cons_cons, ih b, List.getLastD_cons]

/-- C1, counterexample: parsing is not total — a chain beginning with a
bare `>` raises `AttributeError` (the relation is assigned on the Python
value `None`), where the claim promises degradation instead of
failure. -/
theorem c1_parse_raises_on_leading_combinator :
    parse_selector "> p" = .error .attributeError := rfl

/-- C1, amended: unrecognised characters in a term and unrecognised
pseudo-class names degrade to under-constrained terms without raising,
but an unparsable `:nth-child` argument raises `ValueError`, a missing
`:nth-child` argument raises `TypeError`, and a chain beginning with a
bare `>` raises `AttributeError`. -/
theorem c1_parse_leniency_amended :
    parse_selector "div@@" =
      .ok [some (SelectorChain.mk "div" none none none .DESCENDANT none)] ∧
    parse_selector ":hover" =
      .ok [some (SelectorChain.mk "" none none none .DESCENDANT none)] ∧
    parse_selector ":nth-child(two)" = .error .valueError ∧
    parse_selector ":nth-child" = .error .typeError ∧
    parse_selector "> p" = .error .attributeError :=
  ⟨rfl, rfl, rfl, rfl, rfl⟩

/-- C2: on the empty selector string the query raises instead of
returning an empty result — the empty chain parses to the Python value
`None`, whose first attribute access inside `match_selector` raises
`AttributeError` on every tree. -/
theorem c2_empty_selector_raises (node : Node) :
    query_selector_all node "" = .error .attributeError := by
  cases node with
  | mk i t a cs x => rfl

/-- C3: `:not` does evaluate an inner pseudo-class.  Both `p` children
self-match the inner term's tag/class/id test, so under the claim the
result would be empty; the engine instead returns the second child,
because `match_not_pseudo_class_selector` negates the full
`match_selector` (including the inner `:first-child`) on the original
inner selector rather than on the restricted copy it builds. -/
theorem c3_not_evaluates_inner_pseudo_class :
    query_selector_all notTree "p:not(p:first-child)" = .ok [notP2] ∧
    notP2.tag = "p" ∧ notP1.tag = "p" :=
  ⟨rfl, rfl, rfl⟩

/-- C4, counterexample: at a parentless root a `:not` pseudo-class is not
evaluated either — the whole dispatch sits under the parent check, so
`div:not(p)` matches nothing on a bare `div` root even though the `:not`
test itself would succeed there. -/
theorem c4_not_requires_parent_counterexample :
    query_selector_all bareRoot "div:not(p)" = .ok [] ∧
    parse_selector "div:not(p)" = .ok [some divNotP] ∧
    match_not_pseudo_class_selector bareRoot (PseudoArg.chain pTerm) [] = .ok true :=
  ⟨rfl, rfl, rfl⟩

/-- C4, amended: with no parent (empty context) every term carrying any
pseudo-class — `:not` included — fails its per-node test. -/
theorem c4_pseudo_class_at_root_fails (node : Node) (tag : String)
    (fc : Option (List String)) (fi : Option String) (nx : Option SelectorChain)
    (rel : Relation) (ty : PseudoClassType) (arg : PseudoArg) :
    match_pseudo_class_selector node
      (SelectorChain.mk tag fc fi nx rel (some (PseudoClass.mk ty arg))) [] =
      .ok false := rfl

/-- C5, counterexample: `:first-child` and `:last-child` compare with the
structural dataclass `==`, not identity — of two structurally identical
`p` siblings (distinct objects, `nid` 11 and 12), both match
`:first-child` and both match `:last-child`. -/
theorem c5_structural_twin_matches_first_child :
    query_selector_all twinRoot "p:first-child" = .ok [twinA1, twinA2] ∧
    query_selector_all twinRoot "p:last-child" = .ok [twinA1, twinA2] ∧
    twinA1.nid ≠ twinA2.nid :=
  ⟨rfl, rfl, by decide⟩

/-- C5, amended: for a node tested under a parent (tail of the context)
with children, the `:first-child` test returns exactly the structural
equality with the parent's first child, and `:last-child` with its last
child; a node merely structurally equal to that sibling therefore
matches. -/
theorem c5_first_last_child_structural_eq (node : Node) (pre : List Node)
    (nid : Nat) (tag : String) (attrs : List (String × String)) (x : String)
    (c : Node) (cs : List Node) :
    match_first_child_pseudo_class_selector node
        (pre ++ [Node.mk nid tag attrs (c :: cs) x]) = .ok (pyEqNode node c) ∧
    match_last_child_pseudo_class_selector node
        (pre ++ [Node.mk nid tag attrs (c :: cs) x]) =
      .ok (pyEqNode node (cs.getLastD c)) := by
  have hl : (pre ++ [Node.mk nid tag attrs (c :: cs) x]).getLast? =
      some (Node.mk nid tag attrs (c :: cs) x) := List.getLast?_concat pre
  constructor
  · rw [match_first_child_pseudo_class_selector, hl]
    rfl
  · rw [match_last_child_pseudo_class_selector, hl]
    show (match (c :: cs).getLast? with
      | none => Except.error PyErr.indexError
      | some d => pure (pyEqNode node d)) = .ok (pyEqNode node (cs.getLastD c))
    rw [getLast?_cons_getLastD]
    rfl

/-- C6, counterexample: `:nth-child(1)` does not match exactly the first
child — a second sibling that is structurally identical to the first
(a distinct object, different `nid`) also matches, because the test uses
the structural dataclass `==`. -/
theorem c6_structural_twin_matches_nth_child :
    query_selector_all twinBRoot "li:nth-child(1)" = .ok [twinB1, twinB2] ∧
    twinB1.nid ≠ twinB2.nid :=
  ⟨rfl, by decide⟩

/-- C6, amended: under a parent with `k` children, `:nth-child(n)`
matches nothing when `n = 0` (or any non-positive `n`) and when `n`
exceeds `k`, and otherwise succeeds exactly when the node is structurally
equal (dataclass `==`) to the parent's `n`-th child, 1-based — not only
when it is that child by identity. -/
theorem c6_nth_child_bounds_and_structural_eq (node : Node) (pre : List Node)
    (nid : Nat) (tag : String) (attrs : List (String × String)) (cs : List Node)
    (x : String) (n : Int) (k : Nat) :
    (match_nth_child_pseudo_class_selector node n
        (pre ++ [Node.mk nid tag attrs cs x]) = true ↔
      0 < n ∧ n ≤ (cs.length : Int) ∧
        pyEqNode node (cs.getD (n - 1).toNat dummyNode) = true) ∧
    match_nth_child_pseudo_class_selector node 0
        (pre ++ [Node.mk nid tag attrs cs x]) = false ∧
    match_nth_child_pseudo_class_selector node ((cs.length : Int) + (k : Int) + 1)
        (pre ++ [Node.mk nid tag attrs cs x]) = false := by
  have hl : (pre ++ [Node.mk nid tag attrs cs x]).getLast? =
      some (Node.mk nid tag attrs cs x) := List.getLast?_concat pre
  refine ⟨?_, ?_, ?_⟩
  · rw [match_nth_child_pseudo_class_selector, hl]
    simp only [Bool.and_eq_true, decide_eq_true_iff, Node.children]
    exact and_assoc
  · rw [match_nth_child_pseudo_class_selector, hl]
    simp
  · rw [match_nth_child_pseudo_class_selector, hl]
    have hle : ¬((cs.length : Int) + (k : Int) + 1 ≤
        ((Node.mk nid tag attrs cs x).children.length : Int)) := by
      show ¬((cs.length : Int) + (k : Int) + 1 ≤ (cs.length : Int))
      omega
    simp [hle]

/-- C7, counterexample: on `root(div) → child(div) → grandchild(p)` the
query `"div > p"` returns the grandchild, not the empty sequence the
claim states — the grandchild's direct parent is itself a `div`. -/
theorem c7_direct_child_example_counterexample :
    query_selector_all divTree "div > p" = .ok [grandP] ∧
    divTree.tag = "div" ∧ divTree.children = [childDiv] ∧
    childDiv.tag = "div" ∧ childDiv.children = [grandP] ∧ grandP.tag = "p" :=
  ⟨rfl, rfl, rfl, rfl, rfl, rfl⟩

/-- C7, amended: on the all-`div` tree both `"div > p"` and `"div p"`
return the grandchild (its direct parent is a `div`); the
direct-versus-descendant distinction shows on
`root(div) → child(span) → grandchild(p)`, where `"div > p"` tests only
the direct parent (a `span`) with no backtracking to the `div`
grandparent and returns empty, while `"div p"` scans all ancestors and
returns the grandchild. -/
theorem c7_combinator_distinction_amended :
    query_selector_all divTree "div > p" = .ok [grandP] ∧
    query_selector_all divTree "div p" = .ok [grandP] ∧
    query_selector_all spanTree "div > p" = .ok [] ∧
    query_selector_all spanTree "div p" = .ok [grandPS] :=
  ⟨rfl, rfl, rfl, rfl⟩

/-- C8, witness: the spec's own example — `"div p, div p"` queries
exactly like `"div p"` on a concrete tree. -/
theorem query_repeat_alternative_witness :
    noCommaB "div p".data = true ∧
    query_selector_all divTree "div p, div p" = query_selector_all divTree "div p" :=
  ⟨by decide, query_repeat_alternative divTree "div p" (by decide)⟩

/-- C9: selector strings with the same item sequence — the same maximal
runs of non-whitespace-non-`>` characters and the same `>` occurrences,
i.e. forms differing only in whitespace runs and in spacing around `>` —
parse to identical chains, and (when comma-free) produce identical
query results on every tree; concretely, normalization collapses space
runs to one and pads `>` with one space on each side. -/
theorem c9_whitespace_normalization :
    (∀ s t : String, itemize s.data = itemize t.data →
      parse_selector_chain s = parse_selector_chain t) ∧
    (∀ (node : Node) (s t : String), itemize s.data = itemize t.data →
      noCommaB s.data = true → noCommaB t.data = true →
      query_selector_all node s = query_selector_all node t) ∧
    normalize_selector_chain "div   p" = "div p" ∧
    normalize_selector_chain "div>p" = "div > p" ∧
    normalize_selector_chain "div  >  p" = "div > p" :=
  ⟨fun s t h => parse_selector_chainF_itemize parserFuel s.data t.data h,
   fun node s t hi hs ht => query_itemize node s t hi hs ht,
   rfl, rfl, rfl⟩

/-- C9, witness: `"div   p"` and `"div p"` are whitespace variants and
query identically on a concrete tree. -/
theorem c9_whitespace_normalization_witness :
    itemize "div   p".data = itemize "div p".data ∧
    query_selector_all divTree "div   p" = query_selector_all divTree "div p" :=
  ⟨by decide,
   c9_whitespace_normalization.2.1 divTree "div   p" "div p" (by decide) (by decide)
     (by decide)⟩

/-- C10, witness: a concrete successful query whose returned node is a
node of the input tree. -/
theorem query_selector_all_mem_witness :
    query_selector_all spanTree "div p" = .ok [grandPS] ∧
    grandPS ∈ allNodes spanTree :=
  ⟨rfl, query_selector_all_mem spanTree "div p" [grandPS] rfl grandPS (by simp)⟩
